import Mathlib

/-!
# Verification of the WebhookBin capture unit (fayazara/webhookflare, src/index.ts)

Shallow embedding of the `WebhookBin` Durable Object and its route handlers.

Modelling choices, each tied to a place in `src/index.ts`:

* The SQLite table `requests` (created in the constructor, lines 81-91) is a
  list of `WebhookRequest` rows in insertion order together with the
  `AUTOINCREMENT` counter `nextId`; a fresh table starts assigning ids at 1.
* `ORDER BY id DESC LIMIT 100` in `getRequests` (lines 167-179) is embedded as
  an explicit insertion sort on `id` descending followed by `take 100`.
* The in-memory `Set<WebSocket>` `sessions` is a list of `Channel`s; each
  channel carries an identity `cid` and a flag `sendOk` saying whether
  `send` on it succeeds or throws.  `try { send } catch` blocks in the source
  are embedded as a `match` on the `Except`-valued `sendTo`.
* Durable Object input gates serialize all operations of one instance, so
  `captureRequest` and `handleWebSocketConnection` are atomic steps of a trace
  semantics (`Op` / `run`).
* JavaScript truthiness of a stored `number | undefined` (`if (!createdAt)`,
  `createdAt ? _ : _`) is embedded by `truthyTime`, under which both `none`
  and `some 0` are falsy.
* Headers reach `captureRequest` as a record and are stored via
  `JSON.stringify`; the serialized string is taken as the argument here, since
  the bin only stores and returns it verbatim.
-/

namespace WebhookFlare

/-- One row of the `requests` table / one `WebhookRequest` object
(src/index.ts lines 16-24). -/
structure WebhookRequest where
  id : Nat
  timestamp : String
  method : String
  headers : String
  body : String
  query : String
  metadata : String
deriving DecidableEq, Repr

/-- The three WebSocket message shapes produced by the bin:
`new_request` (line 159), `initial_data` (lines 224-228) and
`deleted {reason: "expired"}` (lines 274, 279). -/
inductive Msg where
  | newRequest (r : WebhookRequest)
  | initialData (data : List WebhookRequest) (expiresAt : Nat)
  | deleted
deriving DecidableEq, Repr

/-- A WebSocket channel: an identity plus whether `send` on it succeeds.
(`sendOk = false` models a channel whose `send` throws.) -/
structure Channel where
  cid : Nat
  sendOk : Bool
deriving DecidableEq, Repr

/-- Observable transport events: a successful `send` of a message on a
channel, and a `close()` of a channel. -/
inductive Ev where
  | sent (cid : Nat) (m : Msg)
  | closed (cid : Nat)
deriving DecidableEq, Repr

/-- The channel an event happened on. -/
def Ev.chan : Ev → Nat
  | .sent c _ => c
  | .closed c => c

/-- `CONFIG.TTL_MS` (line 45): 6 hours in milliseconds. -/
def TTL_MS : Nat := 6 * 60 * 60 * 1000

/-- `CONFIG.REQUEST_LIMIT` (line 47). -/
def REQUEST_LIMIT : Nat := 100

/-- The whole per-identifier state of one `WebhookBin`:
durable part (the SQLite table with its autoincrement counter, the
`createdAt` key and the pending alarm) plus the in-memory session set. -/
structure BinState where
  nextId : Nat
  log : List WebhookRequest
  createdAt : Option Nat
  alarm : Option Nat
  sessions : List Channel
deriving DecidableEq, Repr

/-- The state of a never-used bin right after the constructor
(lines 76-92) ran: empty table, autoincrement at 1, nothing stored,
no sessions. -/
def freshState : BinState :=
  { nextId := 1, log := [], createdAt := none, alarm := none, sessions := [] }

/-- JavaScript truthiness of a stored `number | undefined`:
`undefined` and `0` are falsy. -/
def truthyTime : Option Nat → Bool
  | none => false
  | some n => n != 0

/-- `ensureScheduled` (lines 101-115): if `createdAt` is falsy, store `now`
and set the alarm to `now + TTL_MS`; otherwise, if no alarm is pending,
re-create it at the stored `createdAt + TTL_MS`. -/
def ensureScheduled (now : Nat) (s : BinState) : BinState :=
  if truthyTime s.createdAt = false then
    { s with createdAt := some now, alarm := some (now + TTL_MS) }
  else
    match s.alarm with
    | none => { s with alarm := some (s.createdAt.getD 0 + TTL_MS) }
    | some _ => s

/-- Insert a row into a list ordered by `id` descending. -/
def insertByIdDesc (r : WebhookRequest) : List WebhookRequest → List WebhookRequest
  | [] => [r]
  | x :: xs => if x.id ≤ r.id then r :: x :: xs else x :: insertByIdDesc r xs

/-- Sort rows by `id` descending (the semantics of `ORDER BY id DESC`). -/
def sortByIdDesc (l : List WebhookRequest) : List WebhookRequest :=
  l.foldr insertByIdDesc []

/-- `getRequests` (lines 167-179): `SELECT ... ORDER BY id DESC LIMIT 100`. -/
def getRequests (s : BinState) : List WebhookRequest :=
  (sortByIdDesc s.log).take REQUEST_LIMIT

/-- `session.send(message)`: succeeds with a transport event, or throws. -/
def sendTo (c : Channel) (m : Msg) : Except Unit Ev :=
  if c.sendOk then .ok (.sent c.cid m) else .error ()

/-- `broadcast` (lines 253-262): for each session in order, try to send;
on a thrown send the session is deleted from the set and iteration
continues.  Returns the surviving session set and the delivery events;
the per-iteration `try/catch` is the `match` on `sendTo`, so no
exception escapes. -/
def broadcast (m : Msg) : List Channel → List Channel × List Ev
  | [] => ([], [])
  | c :: rest =>
    match sendTo c m with
    | .ok ev => (c :: (broadcast m rest).1, ev :: (broadcast m rest).2)
    | .error _ => broadcast m rest

/-- The arguments of one `captureRequest` call (line 124-130), with the
timestamp `new Date().toISOString()` (line 131) passed explicitly and the
header record already serialized. -/
structure CaptureArgs where
  timestamp : String := ""
  method : String := ""
  headers : String := ""
  body : String := ""
  query : String := ""
  metadata : String := ""
deriving DecidableEq, Repr

/-- The row inserted by `captureRequest` when the autoincrement counter
stands at `k` (lines 134-157). -/
def recOf (k : Nat) (a : CaptureArgs) : WebhookRequest :=
  { id := k, timestamp := a.timestamp, method := a.method, headers := a.headers,
    body := a.body, query := a.query, metadata := a.metadata }

/-- `captureRequest` (lines 124-162): insert the row (assigning the next id),
broadcast `new_request` to all sessions, return the new id. -/
def captureRequest (a : CaptureArgs) (s : BinState) : BinState × Nat × List Ev :=
  ({ s with
      nextId := s.nextId + 1
      log := s.log ++ [recOf s.nextId a]
      sessions := (broadcast (.newRequest (recOf s.nextId a)) s.sessions).1 },
   s.nextId, (broadcast (.newRequest (recOf s.nextId a)) s.sessions).2)

/-- Outcome of `handleWebSocketConnection`: the state after the call, the
transport events it produced, and whether it returned the 101 response
(`.ok`) or an exception escaped it (`.error`). -/
structure WSResult where
  state : BinState
  events : List Ev
  result : Except Unit Unit
deriving Repr

/-- `handleWebSocketConnection` (lines 208-241): `ensureScheduled`, accept
and register the server socket, read the snapshot and `createdAt`, compute
`expiresAt` (with the truthiness fallback of line 222), then send
`initial_data`.  The send is NOT wrapped in try/catch: if it throws, the
close/error listeners of lines 231-238 are never installed, the channel is
neither closed nor removed from `sessions`, and the exception escapes. -/
def handleWS (c : Channel) (now : Nat) (s : BinState) : WSResult :=
  let s1 := ensureScheduled now s
  let s2 := { s1 with sessions := s1.sessions ++ [c] }
  let reqs := getRequests s2
  let expiresAt :=
    if truthyTime s2.createdAt then s2.createdAt.getD 0 + TTL_MS else now + TTL_MS
  match sendTo c (.initialData reqs expiresAt) with
  | .ok ev => { state := s2, events := [ev], result := .ok () }
  | .error _ => { state := s2, events := [], result := .error () }

/-- The per-session loop of `alarm` (lines 277-284): for each session,
`try { send deleted; close } catch { /- ignore -/ }`.  A throwing send
skips the close for that session and is swallowed. -/
def closeLoop : List Channel → List Ev
  | [] => []
  | c :: rest =>
    match sendTo c .deleted with
    | .ok ev => ev :: .closed c.cid :: closeLoop rest
    | .error _ => closeLoop rest

/-- All transport events of one `alarm` run on state `s`: the registry-wide
`broadcastMessage({type:'deleted'})` (line 274) followed by the per-session
send-and-close loop over the sessions that survived the broadcast. -/
def alarmEvents (s : BinState) : List Ev :=
  (broadcast .deleted s.sessions).2 ++ closeLoop (broadcast .deleted s.sessions).1

/-- `alarm` (lines 271-293): broadcast `deleted`, send-and-close every
session, clear the registry, then `storage.deleteAll()` (which wipes the
SQLite database, so the autoincrement counter restarts at 1 when the
constructor re-creates the table).  `deleteOk = false` models a throwing
`deleteAll`; the surrounding `try/catch` rethrows, so the error
propagates. -/
def alarmRun (deleteOk : Bool) (s : BinState) : Except Unit (BinState × List Ev) :=
  if deleteOk then
    .ok ({ nextId := 1, log := [], createdAt := none, alarm := none, sessions := [] },
         alarmEvents s)
  else .error ()

/-- One externally driven operation on a resident bin: a webhook capture or
a WebSocket join at wall-clock time `now`.  Durable Object input gates
guarantee these never interleave, so each is one atomic step. -/
inductive Op where
  | capture (a : CaptureArgs)
  | join (c : Channel) (now : Nat)
deriving Repr

/-- One atomic step of the bin. -/
def step (s : BinState) : Op → BinState × List Ev
  | .capture a => ((captureRequest a s).1, (captureRequest a s).2.2)
  | .join c now => ((handleWS c now s).state, (handleWS c now s).events)

/-- Run a trace of operations, accumulating transport events in order. -/
def run (s : BinState) : List Op → BinState × List Ev
  | [] => (s, [])
  | op :: ops =>
    ((run (step s op).1 ops).1, (step s op).2 ++ (run (step s op).1 ops).2)

/-- Run a sequence of `captureRequest` calls, collecting the returned ids
in call order. -/
def runCaptures (s : BinState) : List CaptureArgs → BinState × List Nat
  | [] => (s, [])
  | a :: rest =>
    ((runCaptures (captureRequest a s).1 rest).1,
     (captureRequest a s).2.1 :: (runCaptures (captureRequest a s).1 rest).2)

/-- The rows a sequence of captures inserts when the autoincrement counter
stands at `k`: ids `k, k+1, ...` in call order. -/
def mkRecords (k : Nat) : List CaptureArgs → List WebhookRequest
  | [] => []
  | a :: rest => recOf k a :: mkRecords (k + 1) rest

/-- Does a message mention the record with id `i` (either as the payload of
`new_request` or inside the `initial_data` snapshot)? -/
def mentionsId (i : Nat) : Msg → Bool
  | .newRequest r => r.id == i
  | .initialData d _ => d.any (fun r => r.id == i)
  | .deleted => false

/-- How many times the record with id `i` was delivered to channel `cid`
within a list of transport events. -/
def deliveredTo (cid i : Nat) (evs : List Ev) : Nat :=
  evs.countP (fun e =>
    match e with
    | .sent c m => c == cid && mentionsId i m
    | .closed _ => false)

/-- Body of an HTTP response produced by the route handlers. -/
inductive RespBody where
  | captured (requestId : Nat)
  | requests (rs : List WebhookRequest)
  | failure (msg : String)
deriving DecidableEq, Repr

/-- An HTTP response: status code and JSON body. -/
structure HttpResp where
  status : Nat
  body : RespBody
deriving DecidableEq, Repr

/-- `handleWebhookCapture` (lines 465-511), capture path: call
`captureRequest` on the bin; the `INSERT` either commits the whole row or
throws with nothing inserted.  The storage oracle `storeOk n` says whether
the n-th storage attempt of this handler would succeed; the handler makes
exactly one attempt (index 0).  On a throw the `catch` returns the generic
`'Failed to capture webhook'` 500 response and the bin state is unchanged. -/
def handleWebhookCapture (storeOk : Nat → Bool) (a : CaptureArgs) (s : BinState) :
    HttpResp × BinState :=
  if storeOk 0 then
    let (s', i, _) := captureRequest a s
    ({ status := 200, body := .captured i }, s')
  else
    ({ status := 500, body := .failure "Failed to capture webhook" }, s)

/-- `handleGetBinRequests` (lines 412-433): call `getRequests`; on a throw
the `catch` returns the generic `'Failed to retrieve requests'` 500
response with no data.  Same single-attempt storage oracle as capture. -/
def handleGetBinRequests (storeOk : Nat → Bool) (s : BinState) : HttpResp :=
  if storeOk 0 then
    { status := 200, body := .requests (getRequests s) }
  else
    { status := 500, body := .failure "Failed to retrieve requests" }

/-! ### Helper lemmas: broadcast -/

theorem sendTo_of_ok {c : Channel} (h : c.sendOk = true) (m : Msg) :
    sendTo c m = .ok (.sent c.cid m) := by
  simp [sendTo, h]

theorem sendTo_of_fail {c : Channel} (h : c.sendOk = false) (m : Msg) :
    sendTo c m = .error () := by
  simp [sendTo, h]

theorem broadcast_eq (m : Msg) (ss : List Channel) :
    broadcast m ss =
      (ss.filter (·.sendOk), (ss.filter (·.sendOk)).map (fun c => Ev.sent c.cid m)) := by
  induction ss with
  | nil => rfl
  | cons c rest ih =>
    by_cases h : c.sendOk = true
    · simp [broadcast, sendTo_of_ok h, ih, List.filter_cons, h]
    · rw [Bool.not_eq_true] at h
      simp [broadcast, sendTo_of_fail h, ih, List.filter_cons, h]

/-! ### Helper lemmas: runs of captures -/

theorem runCaptures_ids (as : List CaptureArgs) : ∀ s : BinState,
    (runCaptures s as).2 = List.range' s.nextId as.length := by
  induction as with
  | nil => intro s; rfl
  | cons a rest ih =>
    intro s
    simp [runCaptures, captureRequest, ih, List.range'_succ]

theorem runCaptures_nextId (as : List CaptureArgs) : ∀ s : BinState,
    (runCaptures s as).1.nextId = s.nextId + as.length := by
  induction as with
  | nil => intro s; simp [runCaptures]
  | cons a rest ih =>
    intro s
    simp [runCaptures, ih, captureRequest]
    omega

theorem runCaptures_log (as : List CaptureArgs) : ∀ s : BinState,
    (runCaptures s as).1.log = s.log ++ mkRecords s.nextId as := by
  induction as with
  | nil => intro s; simp [runCaptures, mkRecords]
  | cons a rest ih =>
    intro s
    simp [runCaptures, ih, captureRequest, mkRecords]

theorem runCaptures_createdAt (as : List CaptureArgs) : ∀ s : BinState,
    (runCaptures s as).1.createdAt = s.createdAt := by
  induction as with
  | nil => intro s; rfl
  | cons a rest ih =>
    intro s
    simp [runCaptures, ih, captureRequest]

theorem runCaptures_sessions (as : List CaptureArgs) : ∀ s : BinState,
    (∀ c ∈ s.sessions, c.sendOk = true) → (runCaptures s as).1.sessions = s.sessions := by
  induction as with
  | nil => intro s _; rfl
  | cons a rest ih =>
    intro s h
    have hfilter : s.sessions.filter (·.sendOk) = s.sessions :=
      List.filter_eq_self.mpr h
    simp [runCaptures, captureRequest, broadcast_eq, hfilter]
    exact ih _ (by simpa [captureRequest, broadcast_eq, hfilter] using h)

/-! ### Helper lemmas: the shape of the inserted rows -/

theorem mkRecords_ids (as : List CaptureArgs) : ∀ k : Nat,
    (mkRecords k as).map (·.id) = List.range' k as.length := by
  induction as with
  | nil => intro k; rfl
  | cons a rest ih =>
    intro k
    simp [mkRecords, recOf, ih, List.range'_succ]

theorem mkRecords_length (as : List CaptureArgs) (k : Nat) :
    (mkRecords k as).length = as.length := by
  have := congrArg List.length (mkRecords_ids as k)
  simpa using this

theorem mem_mkRecords_id {r : WebhookRequest} {as : List CaptureArgs} {k : Nat}
    (h : r ∈ mkRecords k as) : k ≤ r.id ∧ r.id < k + as.length := by
  have : r.id ∈ (mkRecords k as).map (·.id) := List.mem_map_of_mem _ h
  rw [mkRecords_ids] at this
  exact List.mem_range'_1.mp this

theorem mkRecords_pairwise (as : List CaptureArgs) : ∀ k : Nat,
    List.Pairwise (fun a b => a.id < b.id) (mkRecords k as) := by
  induction as with
  | nil => intro k; exact List.Pairwise.nil
  | cons a rest ih =>
    intro k
    refine List.Pairwise.cons ?_ (ih (k + 1))
    intro r hr
    have := mem_mkRecords_id hr
    simp [recOf]
    omega

/-! ### Helper lemmas: `ORDER BY id DESC` on a log of increasing ids -/

theorem insertByIdDesc_append {x : WebhookRequest} (l : List WebhookRequest)
    (h : ∀ y ∈ l, x.id < y.id) : insertByIdDesc x l = l ++ [x] := by
  induction l with
  | nil => rfl
  | cons y ys ih =>
    have hy : x.id < y.id := h y (by simp)
    have hle : ¬ y.id ≤ x.id := by omega
    simp [insertByIdDesc, hle]
    exact ih fun z hz => h z (by simp [hz])

theorem sortByIdDesc_of_pairwise (l : List WebhookRequest)
    (h : List.Pairwise (fun a b => a.id < b.id) l) : sortByIdDesc l = l.reverse := by
  induction l with
  | nil => rfl
  | cons x xs ih =>
    rcases List.pairwise_cons.mp h with ⟨hx, hxs⟩
    have hstep : sortByIdDesc (x :: xs) = insertByIdDesc x (sortByIdDesc xs) := rfl
    rw [hstep, ih hxs,
        insertByIdDesc_append _ fun y hy => hx y (List.mem_reverse.mp hy)]
    simp

theorem getRequests_of_mkRecords (s : BinState) (as : List CaptureArgs) (k : Nat)
    (hlog : s.log = mkRecords k as) :
    getRequests s = ((mkRecords k as).reverse).take REQUEST_LIMIT := by
  rw [getRequests, hlog, sortByIdDesc_of_pairwise _ (mkRecords_pairwise as k)]

theorem fresh_run_ids (as : List CaptureArgs) :
    (runCaptures freshState as).2 = List.range' 1 as.length := by
  simpa [freshState] using runCaptures_ids as freshState

theorem fresh_run_getRequests (as : List CaptureArgs) :
    (getRequests (runCaptures freshState as).1).map (·.id) =
      ((List.range' 1 as.length).reverse).take REQUEST_LIMIT := by
  have hlog : (runCaptures freshState as).1.log = mkRecords 1 as := by
    simpa [freshState] using runCaptures_log as freshState
  rw [getRequests_of_mkRecords _ as 1 hlog, List.map_take, List.map_reverse,
      mkRecords_ids]

/-- C1: starting from a fresh bin, a sequence of N `captureRequest` calls
returns exactly the ids 1..N in call order; `getRequests` then returns
min(N,100) records ordered by strictly descending id, and after 150
captures it returns exactly the records with ids 150 down to 51. -/
theorem captureRequest_ids_and_getRequests (as : List CaptureArgs) :
    (runCaptures freshState as).2 = List.range' 1 as.length ∧
    (getRequests (runCaptures freshState as).1).map (·.id) =
      ((List.range' 1 as.length).reverse).take REQUEST_LIMIT ∧
    (getRequests (runCaptures freshState as).1).length = min as.length REQUEST_LIMIT ∧
    List.Pairwise (· > ·) ((getRequests (runCaptures freshState as).1).map (·.id)) ∧
    (getRequests (runCaptures freshState (List.replicate 150 {})).1).map (·.id) =
      (List.range' 51 100).reverse := by
  refine ⟨fresh_run_ids as, fresh_run_getRequests as, ?_, ?_, ?_⟩
  · have h := congrArg List.length (fresh_run_getRequests as)
    simpa [REQUEST_LIMIT, Nat.min_comm] using h
  · rw [fresh_run_getRequests as]
    exact (List.pairwise_reverse.mpr
      (by simpa using List.pairwise_lt_range' 1 as.length)).take
  · have h := fresh_run_getRequests (List.replicate 150 {})
    simp only [List.length_replicate] at h
    rw [h]
    decide

/-- C4: `ensureScheduled` is idempotent.  If `createdAt` is already set (to a
real, nonzero epoch timestamp), calling it again leaves `createdAt` — and
hence the derived `expiresAt = createdAt + TTL_MS` — unchanged; if the
pending alarm was lost it is re-created at the stored `createdAt + TTL_MS`;
an existing alarm is untouched; and a repeated call at any later time is the
identity on the state. -/
theorem ensureScheduled_idempotent (now c : Nat) (s : BinState)
    (h : s.createdAt = some c) (hc : 0 < c) :
    (ensureScheduled now s).createdAt = some c ∧
    (s.alarm = none → (ensureScheduled now s).alarm = some (c + TTL_MS)) ∧
    (∀ a, s.alarm = some a → (ensureScheduled now s).alarm = some a) ∧
    (∀ now' t, 0 < now →
      ensureScheduled now' (ensureScheduled now t) = ensureScheduled now t) := by
  have ht : truthyTime (some c) = true := by
    simp [truthyTime, bne_iff_ne]
    omega
  refine ⟨?_, ?_, ?_, ?_⟩
  · cases halarm : s.alarm <;> simp [ensureScheduled, h, ht, halarm]
  · intro halarm
    simp [ensureScheduled, h, ht, halarm]
  · intro a halarm
    simp [ensureScheduled, h, ht, halarm]
  · intro now' t hnow
    by_cases ht' : truthyTime t.createdAt = true
    · cases halarm : t.alarm with
      | none =>
        have : truthyTime t.createdAt ≠ false := by simp [ht']
        simp [ensureScheduled, ht', halarm, this]
      | some a =>
        have : truthyTime t.createdAt ≠ false := by simp [ht']
        simp [ensureScheduled, ht', halarm, this]
    · rw [Bool.not_eq_true] at ht'
      have hnew : truthyTime (some now) = true := by
        simp [truthyTime, bne_iff_ne]
        omega
      simp [ensureScheduled, ht', hnew]

/-- C4 witness: a state with `createdAt` set to 7 and no pending alarm has
its alarm re-created at `7 + TTL_MS` and `createdAt` untouched. -/
theorem ensureScheduled_idempotent_witness :
    (0 : Nat) < 7 ∧
    (ensureScheduled 99 { freshState with createdAt := some 7 }).createdAt = some 7 := by
  refine ⟨by decide, ?_⟩
  exact (ensureScheduled_idempotent 99 7 { freshState with createdAt := some 7 }
    rfl (by decide)).1

/-- C5: `broadcast` is best-effort and totally contained: the surviving
registry is exactly the channels whose send succeeded (a send failure
removes exactly that channel), every other registered channel still receives
the message (in registration order), and the function returns normally — the
per-channel `try/catch` confines every send failure, so no exception
reaches the caller. -/
theorem broadcast_contained (m : Msg) (ss : List Channel) :
    broadcast m ss =
      (ss.filter (fun c => c.sendOk),
       (ss.filter (fun c => c.sendOk)).map (fun c => Ev.sent c.cid m)) :=
  broadcast_eq m ss

/-! ### Helper lemmas: the alarm's send-and-close loop -/

theorem closed_mem_closeLoop {c : Channel} : ∀ {ss : List Channel},
    c ∈ ss → c.sendOk = true → Ev.closed c.cid ∈ closeLoop ss := by
  intro ss hmem hok
  induction ss with
  | nil => cases hmem
  | cons d rest ih =>
    rcases List.mem_cons.mp hmem with rfl | hmem'
    · simp [closeLoop, sendTo_of_ok hok]
    · by_cases hd : d.sendOk = true
      · simp only [closeLoop, sendTo_of_ok hd]
        exact List.mem_cons_of_mem _ (List.mem_cons_of_mem _ (ih hmem'))
      · rw [Bool.not_eq_true] at hd
        simp only [closeLoop, sendTo_of_fail hd]
        exact ih hmem'

@[simp]
theorem Ev.chan_sent (i : Nat) (m : Msg) : Ev.chan (.sent i m) = i := rfl

@[simp]
theorem Ev.chan_closed (i : Nat) : Ev.chan (.closed i) = i := rfl

theorem sent_filter_of_not_mem {i : Nat} (m : Msg) : ∀ ss : List Channel,
    i ∉ ss.map (·.cid) →
    (((ss.filter (·.sendOk)).map (fun d => Ev.sent d.cid m)).filter
      (fun e => e.chan == i)) = [] := by
  intro ss
  induction ss with
  | nil => intro _; rfl
  | cons d rest ih =>
    intro h
    rw [List.map_cons] at h
    have hd : ¬ d.cid = i := fun e => h (by rw [← e]; exact List.mem_cons_self _ _)
    have hrest : i ∉ rest.map (·.cid) := fun hm => h (List.mem_cons_of_mem _ hm)
    by_cases hok : d.sendOk = true
    · simp [List.filter_cons, hok, hd, ih hrest]
    · rw [Bool.not_eq_true] at hok
      simp [List.filter_cons, hok, ih hrest]

theorem closeLoop_filter_of_not_mem {i : Nat} : ∀ ss : List Channel,
    i ∉ ss.map (·.cid) →
    ((closeLoop ss).filter (fun e => e.chan == i)) = [] := by
  intro ss
  induction ss with
  | nil => intro _; rfl
  | cons d rest ih =>
    intro h
    rw [List.map_cons] at h
    have hd : ¬ d.cid = i := fun e => h (by rw [← e]; exact List.mem_cons_self _ _)
    have hrest : i ∉ rest.map (·.cid) := fun hm => h (List.mem_cons_of_mem _ hm)
    by_cases hok : d.sendOk = true
    · simp [closeLoop, sendTo_of_ok hok, List.filter_cons, hd, ih hrest]
    · rw [Bool.not_eq_true] at hok
      simp [closeLoop, sendTo_of_fail hok, ih hrest]

theorem sent_filter_of_mem {c : Channel} (m : Msg) : ∀ ss : List Channel,
    c ∈ ss → c.sendOk = true → (ss.map (·.cid)).Nodup →
    (((ss.filter (·.sendOk)).map (fun d => Ev.sent d.cid m)).filter
      (fun e => e.chan == c.cid)) = [Ev.sent c.cid m] := by
  intro ss
  induction ss with
  | nil => intro h; cases h
  | cons d rest ih =>
    intro hmem hok hnodup
    rw [List.map_cons] at hnodup
    obtain ⟨hdnot, hrestnodup⟩ := List.nodup_cons.mp hnodup
    rcases List.mem_cons.mp hmem with rfl | hmem'
    · simp [List.filter_cons, hok, sent_filter_of_not_mem m rest hdnot]
    · have hne : ¬ d.cid = c.cid :=
        fun e => hdnot (by rw [e]; exact List.mem_map_of_mem _ hmem')
      by_cases hd : d.sendOk = true
      · simp [List.filter_cons, hd, hne, ih hmem' hok hrestnodup]
      · rw [Bool.not_eq_true] at hd
        simp [List.filter_cons, hd, ih hmem' hok hrestnodup]

theorem closeLoop_filter_of_mem {c : Channel} : ∀ ss : List Channel,
    c ∈ ss → c.sendOk = true → (ss.map (·.cid)).Nodup →
    ((closeLoop ss).filter (fun e => e.chan == c.cid)) =
      [Ev.sent c.cid .deleted, Ev.closed c.cid] := by
  intro ss
  induction ss with
  | nil => intro h; cases h
  | cons d rest ih =>
    intro hmem hok hnodup
    rw [List.map_cons] at hnodup
    obtain ⟨hdnot, hrestnodup⟩ := List.nodup_cons.mp hnodup
    rcases List.mem_cons.mp hmem with rfl | hmem'
    · simp [closeLoop, sendTo_of_ok hok, List.filter_cons,
            closeLoop_filter_of_not_mem rest hdnot]
    · have hne : ¬ d.cid = c.cid :=
        fun e => hdnot (by rw [e]; exact List.mem_map_of_mem _ hmem')
      by_cases hd : d.sendOk = true
      · simp [closeLoop, sendTo_of_ok hd, List.filter_cons, hne,
              ih hmem' hok hrestnodup]
      · rw [Bool.not_eq_true] at hd
        simp [closeLoop, sendTo_of_fail hd, ih hmem' hok hrestnodup]

theorem filter_cids_nodup {ss : List Channel} (h : (ss.map (·.cid)).Nodup)
    (p : Channel → Bool) : ((ss.filter p).map (·.cid)).Nodup :=
  h.sublist ((ss.filter_sublist).map (·.cid))

/-- C3: the expiry handler is safe under at-least-once redelivery: one run
erases everything (the end state is exactly the fresh state: registry empty,
log, `createdAt` and alarm gone, autoincrement back at 1) and closes every
session whose sends succeed; running it again from that end state yields the
identical end state, produces no events, and raises no error; and when
`deleteAll` throws, the exception propagates to the caller. -/
theorem alarm_redelivery_safe (s : BinState) :
    alarmRun true s = .ok (freshState, alarmEvents s) ∧
    (∀ c ∈ s.sessions, c.sendOk = true → Ev.closed c.cid ∈ alarmEvents s) ∧
    alarmRun true freshState = .ok (freshState, []) ∧
    alarmRun false s = .error () := by
  refine ⟨rfl, ?_, rfl, rfl⟩
  intro c hmem hok
  have hmem' : c ∈ s.sessions.filter (·.sendOk) :=
    List.mem_filter.mpr ⟨hmem, hok⟩
  have : Ev.closed c.cid ∈ closeLoop ((broadcast .deleted s.sessions).1) := by
    rw [broadcast_eq]
    exact closed_mem_closeLoop hmem' hok
  exact List.mem_append_right _ this

/-- C7: a destroyed unit is indistinguishable from one that never existed:
the expiry handler's end state is literally `freshState`, on which
`getRequests` returns nothing, `createdAt` is unset, and a new capture
sequence is assigned ids starting again at 1 — the very observations a
never-created identifier yields. -/
theorem destroyed_indistinguishable (s : BinState) (as : List CaptureArgs) :
    alarmRun true s = .ok (freshState, alarmEvents s) ∧
    getRequests freshState = [] ∧
    freshState.createdAt = none ∧
    (runCaptures freshState as).2 = List.range' 1 as.length :=
  ⟨rfl, rfl, rfl, fresh_run_ids as⟩

/-- C9: during one run of the expiry handler, a registered session whose
sends succeed sees exactly this event sequence: the `deleted` message twice
— once from the registry-wide broadcast, once from the per-session close
loop — followed by its close. -/
theorem alarm_deleted_sent_twice (s : BinState) (c : Channel)
    (hmem : c ∈ s.sessions) (hok : c.sendOk = true)
    (hnodup : (s.sessions.map (·.cid)).Nodup) :
    (alarmEvents s).filter (fun e => e.chan == c.cid) =
      [Ev.sent c.cid .deleted, Ev.sent c.cid .deleted, Ev.closed c.cid] := by
  rw [alarmEvents, List.filter_append, broadcast_eq]
  rw [sent_filter_of_mem .deleted s.sessions hmem hok hnodup]
  rw [closeLoop_filter_of_mem (s.sessions.filter (·.sendOk))
        (List.mem_filter.mpr ⟨hmem, hok⟩) hok (filter_cids_nodup hnodup _)]
  rfl

/-- C9 witness: with two registered sessions of which the second fails,
session 5 receives `deleted` twice and is then closed. -/
theorem alarm_deleted_sent_twice_witness :
    (alarmEvents { freshState with sessions := [⟨5, true⟩, ⟨9, false⟩] }).filter
        (fun e => e.chan == 5) =
      [Ev.sent 5 .deleted, Ev.sent 5 .deleted, Ev.closed 5] :=
  alarm_deleted_sent_twice { freshState with sessions := [⟨5, true⟩, ⟨9, false⟩] }
    ⟨5, true⟩ (by decide) (by decide) (by decide)

/-! ### Helper lemmas: the WebSocket join -/

theorem handleWS_ok (c : Channel) (now : Nat) (s : BinState) (hok : c.sendOk = true) :
    (handleWS c now s).events =
      [Ev.sent c.cid (.initialData (getRequests (ensureScheduled now s))
        (if truthyTime (ensureScheduled now s).createdAt then
          (ensureScheduled now s).createdAt.getD 0 + TTL_MS
        else now + TTL_MS))] ∧
    (handleWS c now s).state =
      { ensureScheduled now s with
          sessions := (ensureScheduled now s).sessions ++ [c] } ∧
    (handleWS c now s).result = .ok () := by
  refine ⟨?_, ?_, ?_⟩ <;> simp [handleWS, sendTo_of_ok hok, getRequests]

theorem ensureScheduled_createdAt_pos (now : Nat) (s : BinState) (hnow : 0 < now)
    (hca : ∀ y, s.createdAt = some y → 0 < y) :
    ∃ cv, (ensureScheduled now s).createdAt = some cv ∧ 0 < cv := by
  by_cases ht : truthyTime s.createdAt = true
  · cases hy : s.createdAt with
    | none => rw [hy] at ht; simp [truthyTime] at ht
    | some y =>
      refine ⟨y, ?_, hca y hy⟩
      have hne : truthyTime (some y) ≠ false := by rw [← hy]; simp [ht]
      cases halarm : s.alarm <;> simp [ensureScheduled, hne, hy, halarm]
  · rw [Bool.not_eq_true] at ht
    exact ⟨now, by simp [ensureScheduled, ht], hnow⟩

/-- C6 (amended): when the initial-snapshot send of a subscribe fails, the
exception escapes `handleWebSocketConnection` (there is no try/catch around
the send), the channel has already been added to the session registry and
stays there, and no event — neither the snapshot nor a close — is ever
delivered to it: the channel is left registered without its snapshot. -/
theorem ws_snapshot_failure_leaves_registered (c : Channel) (now : Nat)
    (s : BinState) (h : c.sendOk = false) :
    (handleWS c now s).result = .error () ∧
    (handleWS c now s).state.sessions = (ensureScheduled now s).sessions ++ [c] ∧
    (handleWS c now s).events = [] := by
  refine ⟨?_, ?_, ?_⟩ <;> simp [handleWS, sendTo_of_fail h]

/-- C6 witness: channel 7, whose send fails, joining a fresh bin. -/
theorem ws_snapshot_failure_witness :
    (Channel.mk 7 false).sendOk = false ∧
    (handleWS ⟨7, false⟩ 5 freshState).events = [] :=
  ⟨rfl, (ws_snapshot_failure_leaves_registered ⟨7, false⟩ 5 freshState rfl).2.2⟩

/-- C6 counterexample to the claim as stated: at the concrete input
(channel 7 with a failing send, joining a fresh bin at time 5) the channel
is NOT closed — no close event is emitted and the ones that would install
the close are never reached — and it IS left registered in the session
registry having received no snapshot. -/
theorem ws_snapshot_failure_counterexample :
    (handleWS ⟨7, false⟩ 5 freshState).result = .error () ∧
    ⟨7, false⟩ ∈ (handleWS ⟨7, false⟩ 5 freshState).state.sessions ∧
    Ev.closed 7 ∉ (handleWS ⟨7, false⟩ 5 freshState).events ∧
    (handleWS ⟨7, false⟩ 5 freshState).events = [] := by
  refine ⟨rfl, by decide, by decide, rfl⟩

/-- C8: capture is atomic with respect to failure.  When the store's insert
throws, the route handler answers with the generic
`'Failed to capture webhook'` 500 response and returns the bin state
untouched — no record is created; a failing query likewise answers the
generic `'Failed to retrieve requests'` 500 response with no data; and
neither handler retries: any storage oracle agreeing on the single attempt
it makes (index 0) produces the identical responses. -/
theorem capture_failure_atomic (ok okAgain : Nat → Bool) (a : CaptureArgs)
    (s : BinState) (h : ok 0 = false) (hsame : ok 0 = okAgain 0) :
    handleWebhookCapture ok a s =
      ({ status := 500, body := .failure "Failed to capture webhook" }, s) ∧
    handleGetBinRequests ok s =
      { status := 500, body := .failure "Failed to retrieve requests" } ∧
    handleWebhookCapture okAgain a s = handleWebhookCapture ok a s ∧
    handleGetBinRequests okAgain s = handleGetBinRequests ok s := by
  refine ⟨?_, ?_, ?_, ?_⟩ <;>
    simp [handleWebhookCapture, handleGetBinRequests, h, ← hsame]

/-- C8 witness: an always-failing store on a fresh bin yields the generic
capture failure and leaves the state untouched. -/
theorem capture_failure_atomic_witness :
    ((fun _ : Nat => false) 0 = false) ∧
    handleWebhookCapture (fun _ => false) {} freshState =
      ({ status := 500, body := .failure "Failed to capture webhook" },
       freshState) :=
  ⟨rfl, (capture_failure_atomic (fun _ => false) (fun n => n != 0) {} freshState
    rfl rfl).1⟩

/-- C10: in every `initial_data` message, `expiresAt` equals the stored
`createdAt` plus the 6-hour TTL.  Because `ensureScheduled` runs before the
snapshot is read, `createdAt` is present (and truthy, given that clock
readings are positive) at that point, so the fallback branch computing
`expiresAt` from the current time is not taken. -/
theorem initial_data_expiresAt (c : Channel) (now : Nat) (s : BinState)
    (hnow : 0 < now) (hca : ∀ y, s.createdAt = some y → 0 < y)
    (hok : c.sendOk = true) :
    truthyTime (ensureScheduled now s).createdAt = true ∧
    ∃ cv, (ensureScheduled now s).createdAt = some cv ∧ 0 < cv ∧
      (handleWS c now s).events =
        [Ev.sent c.cid (.initialData (getRequests (ensureScheduled now s))
          (cv + TTL_MS))] := by
  obtain ⟨cv, hcv, hcvpos⟩ := ensureScheduled_createdAt_pos now s hnow hca
  have ht : truthyTime (ensureScheduled now s).createdAt = true := by
    simp [hcv, truthyTime, bne_iff_ne]
    omega
  refine ⟨ht, cv, hcv, hcvpos, ?_⟩
  rw [(handleWS_ok c now s hok).1, ht]
  simp [hcv]

/-- C10 witness: channel 3 joining a fresh bin at time 5 gets
`expiresAt = 5 + TTL_MS` — the `createdAt` that `ensureScheduled` just
stored, plus the TTL. -/
theorem initial_data_expiresAt_witness :
    (0 : Nat) < 5 ∧
    truthyTime (ensureScheduled 5 freshState).createdAt = true :=
  ⟨by decide,
   (initial_data_expiresAt ⟨3, true⟩ 5 freshState (by decide)
     (fun y hy => by simp [freshState] at hy) rfl).1⟩

/-! ### Helper lemmas: traces of operations -/

theorem run_append (l1 l2 : List Op) : ∀ s : BinState,
    run s (l1 ++ l2) =
      ((run (run s l1).1 l2).1, (run s l1).2 ++ (run (run s l1).1 l2).2) := by
  induction l1 with
  | nil => intro s; simp [run]
  | cons op rest ih =>
    intro s
    simp [run, ih, List.append_assoc]

theorem run_capture_ops_state (as : List CaptureArgs) : ∀ s : BinState,
    (run s (as.map Op.capture)).1 = (runCaptures s as).1 := by
  induction as with
  | nil => intro s; rfl
  | cons a rest ih =>
    intro s
    simp [run, runCaptures, step, ih]

theorem run_capture_ops_events_nil (as : List CaptureArgs) : ∀ s : BinState,
    s.sessions = [] → (run s (as.map Op.capture)).2 = [] := by
  induction as with
  | nil => intro s _; rfl
  | cons a rest ih =>
    intro s h
    have hb : broadcast (.newRequest (recOf s.nextId a)) s.sessions = ([], []) := by
      rw [h]
      rfl
    simp [run, step, captureRequest, hb]
    exact ih _ (by simp [captureRequest, hb])

theorem run_capture_ops_events_single (as : List CaptureArgs) :
    ∀ (s : BinState) (c : Channel), s.sessions = [c] → c.sendOk = true →
    (run s (as.map Op.capture)).2 =
      (mkRecords s.nextId as).map (fun r => Ev.sent c.cid (.newRequest r)) := by
  induction as with
  | nil => intro s c _ _; rfl
  | cons a rest ih =>
    intro s c h hok
    have hb : broadcast (.newRequest (recOf s.nextId a)) s.sessions =
        ([c], [Ev.sent c.cid (.newRequest (recOf s.nextId a))]) := by
      rw [h, broadcast_eq]
      simp [hok]
    simp [run, step, captureRequest, hb, mkRecords]
    exact ih _ c (by simp [captureRequest, hb]) hok

theorem ensureScheduled_same (now : Nat) (t : BinState) :
    (ensureScheduled now t).log = t.log ∧ (ensureScheduled now t).nextId = t.nextId ∧
    (ensureScheduled now t).sessions = t.sessions := by
  unfold ensureScheduled
  by_cases h : truthyTime t.createdAt = false
  · simp [h]
  · cases halarm : t.alarm <;> simp [h, halarm]

theorem mem_take_reverse_range' (j : Nat) : ∀ k t : Nat,
    j ∈ ((List.range' 1 k).reverse.take t) ↔ 1 ≤ j ∧ j ≤ k ∧ k < j + t := by
  intro k
  induction k with
  | zero =>
    intro t
    simp
    omega
  | succ n ih =>
    intro t
    rw [List.range'_concat, List.reverse_append]
    cases t with
    | zero => simp
    | succ t' =>
      simp only [List.reverse_singleton, List.singleton_append, List.take_succ_cons,
        List.mem_cons, ih t']
      omega

theorem countP_id_mkRecords (as : List CaptureArgs) : ∀ k j : Nat,
    (mkRecords k as).countP (fun r => r.id == j) =
      if k ≤ j ∧ j < k + as.length then 1 else 0 := by
  induction as with
  | nil =>
    intro k j
    simp only [mkRecords, List.countP_nil, List.length_nil]
    rw [if_neg (by omega)]
  | cons a rest ih =>
    intro k j
    simp only [mkRecords, List.countP_cons, ih (k + 1) j, recOf, List.length_cons,
      beq_iff_eq]
    split_ifs <;> simp_all <;> omega

theorem deliveredTo_append (i j : Nat) (l1 l2 : List Ev) :
    deliveredTo i j (l1 ++ l2) = deliveredTo i j l1 + deliveredTo i j l2 :=
  List.countP_append _ l1 l2

theorem deliveredTo_sent_single (i j cc : Nat) (m : Msg) :
    deliveredTo i j [Ev.sent cc m] = if (cc == i && mentionsId j m) = true then 1 else 0 := by
  simp [deliveredTo, List.countP_cons]

theorem deliveredTo_newRequests (j cc : Nat) (rs : List WebhookRequest) :
    deliveredTo cc j (rs.map (fun r => Ev.sent cc (.newRequest r))) =
      rs.countP (fun r => r.id == j) := by
  rw [deliveredTo, List.countP_map]
  refine List.countP_congr fun r _ => ?_
  simp [Function.comp, mentionsId]

/-- C2 (amended): operations of one bin are atomic steps of a serialized
trace (the Durable Object input gate keeps join's snapshot-read-plus-
registration from interleaving with an append-plus-broadcast), and for
every interleaving of one join with captures on a fresh bin the joining
viewer receives record j exactly once when j was captured after the join or
is among the `REQUEST_LIMIT` most recent pre-join records — via exactly one
of the snapshot or a `new_request` broadcast, never both — and zero times
when it is an older pre-join record, the snapshot being capped at 100
records.  In particular, with at most 100 pre-join captures every record is
received exactly once. -/
theorem viewer_receives_each_record_once (pre post : List CaptureArgs)
    (c : Channel) (now : Nat) (hok : c.sendOk = true) (j : Nat) (hj1 : 1 ≤ j)
    (hj2 : j ≤ pre.length + post.length) :
    deliveredTo c.cid j
        (run freshState
          (pre.map Op.capture ++ Op.join c now :: post.map Op.capture)).2 =
      (if pre.length < j + REQUEST_LIMIT then 1 else 0) ∧
    (pre.length ≤ REQUEST_LIMIT →
      deliveredTo c.cid j
        (run freshState
          (pre.map Op.capture ++ Op.join c now :: post.map Op.capture)).2 = 1) := by
  have hpre_ev : (run freshState (pre.map Op.capture)).2 = [] :=
    run_capture_ops_events_nil pre freshState rfl
  have hpre_st : (run freshState (pre.map Op.capture)).1 =
      (runCaptures freshState pre).1 :=
    run_capture_ops_state pre freshState
  have hmid_log : (runCaptures freshState pre).1.log = mkRecords 1 pre := by
    simpa [freshState] using runCaptures_log pre freshState
  have hmid_nextId : (runCaptures freshState pre).1.nextId = 1 + pre.length := by
    simpa [freshState] using runCaptures_nextId pre freshState
  have hmid_sessions : (runCaptures freshState pre).1.sessions = [] := by
    have h := runCaptures_sessions pre freshState
      (fun d hd => absurd hd (by simp [freshState]))
    simpa [freshState] using h
  obtain ⟨hev, hst, -⟩ := handleWS_ok c now (runCaptures freshState pre).1 hok
  have hES := ensureScheduled_same now (runCaptures freshState pre).1
  have hws_sessions :
      (handleWS c now (runCaptures freshState pre).1).state.sessions = [c] := by
    rw [hst]
    simp [hES.2.2, hmid_sessions]
  have hws_nextId :
      (handleWS c now (runCaptures freshState pre).1).state.nextId =
        1 + pre.length := by
    rw [hst]
    simp [hES.2.1, hmid_nextId]
  have hpost_ev :
      (run (handleWS c now (runCaptures freshState pre).1).state
        (post.map Op.capture)).2 =
      (mkRecords (1 + pre.length) post).map
        (fun r => Ev.sent c.cid (.newRequest r)) := by
    rw [run_capture_ops_events_single post _ c hws_sessions hok, hws_nextId]
  have hD_log : (ensureScheduled now (runCaptures freshState pre).1).log =
      mkRecords 1 pre := by
    rw [hES.1, hmid_log]
  have hDmap :
      (getRequests (ensureScheduled now (runCaptures freshState pre).1)).map (·.id) =
        ((List.range' 1 pre.length).reverse).take REQUEST_LIMIT := by
    rw [getRequests_of_mkRecords _ pre 1 hD_log, List.map_take, List.map_reverse,
        mkRecords_ids]
  have hany_iff :
      ((getRequests (ensureScheduled now (runCaptures freshState pre).1)).any
          (fun r => r.id == j) = true) ↔
        (1 ≤ j ∧ j ≤ pre.length ∧ pre.length < j + REQUEST_LIMIT) := by
    rw [List.any_eq_true]
    constructor
    · rintro ⟨r, hr, hid⟩
      rw [beq_iff_eq] at hid
      have hmm : r.id ∈
          (getRequests (ensureScheduled now (runCaptures freshState pre).1)).map
            (·.id) := List.mem_map_of_mem _ hr
      rw [hDmap, hid] at hmm
      exact (mem_take_reverse_range' j pre.length REQUEST_LIMIT).mp hmm
    · intro h
      have hjmem : j ∈
          (getRequests (ensureScheduled now (runCaptures freshState pre).1)).map
            (·.id) := by
        rw [hDmap]
        exact (mem_take_reverse_range' j pre.length REQUEST_LIMIT).mpr h
      obtain ⟨r, hr, hrid⟩ := List.mem_map.mp hjmem
      exact ⟨r, hr, by rw [beq_iff_eq, hrid]⟩
  have hsplit :
      (run (runCaptures freshState pre).1
        (Op.join c now :: post.map Op.capture)).2 =
      (handleWS c now (runCaptures freshState pre).1).events ++
        (run (handleWS c now (runCaptures freshState pre).1).state
          (post.map Op.capture)).2 := rfl
  have hhead :
      deliveredTo c.cid j (handleWS c now (runCaptures freshState pre).1).events =
        if 1 ≤ j ∧ j ≤ pre.length ∧ pre.length < j + REQUEST_LIMIT then 1
        else 0 := by
    rw [hev, deliveredTo_sent_single]
    by_cases hb :
        ((getRequests (ensureScheduled now (runCaptures freshState pre).1)).any
          (fun r => r.id == j)) = true
    · rw [if_pos (by simp [mentionsId, hb]), if_pos (hany_iff.mp hb)]
    · rw [if_neg (by simp [mentionsId]; simpa using hb),
          if_neg (fun hh => hb (hany_iff.mpr hh))]
  have hpost :
      deliveredTo c.cid j
        (run (handleWS c now (runCaptures freshState pre).1).state
          (post.map Op.capture)).2 =
        if 1 + pre.length ≤ j ∧ j < 1 + pre.length + post.length then 1
        else 0 := by
    rw [hpost_ev, deliveredTo_newRequests, countP_id_mkRecords post]
  have hmain :
      deliveredTo c.cid j
        (run freshState
          (pre.map Op.capture ++ Op.join c now :: post.map Op.capture)).2 =
      (if pre.length < j + REQUEST_LIMIT then 1 else 0) := by
    rw [run_append, hpre_ev, hpre_st, List.nil_append, hsplit,
        deliveredTo_append, hhead, hpost]
    split_ifs <;> omega
  exact ⟨hmain, fun hk => by
    rw [hmain, if_pos (by simp [REQUEST_LIMIT] at hk ⊢; omega)]⟩

/-- C2 witness: one capture, then a join by channel 0: the viewer receives
record 1 exactly once (in its snapshot). -/
theorem viewer_receives_each_record_once_witness :
    deliveredTo 0 1
        (run freshState
          ([({} : CaptureArgs)].map Op.capture ++
            Op.join ⟨0, true⟩ 1 :: ([] : List CaptureArgs).map Op.capture)).2 = 1 :=
  (viewer_receives_each_record_once [{}] [] ⟨0, true⟩ 1 rfl 1 (by decide)
    (by decide)).2 (by decide)

set_option maxRecDepth 40000 in
/-- C2 counterexample to the claim as stated: after 101 captures, a joining
viewer (channel 0, sends succeeding) never receives record 1 — it is
neither in the `initial_data` snapshot (capped at the 100 most recent
records) nor in any later `new_request` broadcast — although record 1 was
captured before the join and is still in the log. -/
theorem viewer_misses_old_record :
    1 ∈ ((run freshState
        ((List.replicate 101 ({} : CaptureArgs)).map Op.capture ++
          [Op.join ⟨0, true⟩ 1])).1.log.map (·.id)) ∧
    deliveredTo 0 1
      (run freshState
        ((List.replicate 101 ({} : CaptureArgs)).map Op.capture ++
          [Op.join ⟨0, true⟩ 1])).2 = 0 :=
  ⟨by decide, by decide⟩

end WebhookFlare
